import Mathlib

/-!
Verification development for the effect-composition engine of the
`postprocessing` repository.

The repository sources available under `src/` are a unit test
(`RealisticBokehPass` creation/destruction) and a demo
(`ColorDepthDemo.js`).  The engine itself (Merge Planner, Shader
Synthesizer, Pass Scheduler, Composer, Render Target Pool) is not under
`src/`, so its definitions below are modelled from the specification, as
their doc comments state.  The demo and the test are embedded from their
source where they decide a claim.
-/

/-- Modelled from the spec: blend function enum of an Effect Descriptor
("`blendFunction`: enum (e.g., NORMAL, ADD, MULTIPLY, SKIP)"). -/
inductive BlendFunction where
  | NORMAL
  | ADD
  | MULTIPLY
  | SKIP
deriving DecidableEq, Repr

/-- Modelled from the spec: capability flags of `requiredInputs`
("set of capability flags, e.g. {COLOR, DEPTH, VELOCITY,
CUSTOM_RENDER_TARGET}"); the design notes close the set. -/
inductive InputFlag where
  | COLOR
  | DEPTH
  | VELOCITY
  | CUSTOM_RENDER_TARGET
deriving DecidableEq, Repr, Fintype

/-- Modelled from the spec: `mergeConstraints` — "flags that force
isolation — e.g. an effect needing its own full-resolution convolution
pass, or one that must run before/after all others (ordering pins)". -/
structure MergeConstraints where
  isolated : Bool
  pinFirst : Bool
  pinLast : Bool
deriving DecidableEq, Repr

/-- A descriptor with no merge constraints at all. -/
def MergeConstraints.none : MergeConstraints := ⟨false, false, false⟩

/-- Modelled from the spec: the Effect Descriptor record (§3 DATA MODEL).
The shader fragment text is kept as an opaque identifier-free string; the
per-pixel semantics needed by the round-trip claim live in `EffectSem`
below. -/
structure EffectDescriptor where
  id : Nat
  enabled : Bool
  blendFunction : BlendFunction
  opacity : ℚ
  fragmentCode : String
  requiredInputs : List InputFlag
  mergeConstraints : MergeConstraints
deriving DecidableEq, Repr

/-- A descriptor is mergeable when none of its merge constraints forces
isolation or pins it ("neither requires an isolated full pass, neither is
pinned to a specific position"). -/
def EffectDescriptor.mergeable (d : EffectDescriptor) : Bool :=
  !d.mergeConstraints.isolated && !d.mergeConstraints.pinFirst &&
    !d.mergeConstraints.pinLast

/-- Number of input bindings available to a single pass ("bounded number
of texture samplers/varyings"); any union of the closed capability-flag
set fits. -/
def maxBindings : Nat := 8

/-- Combined required-input set of a group of descriptors, deduplicated. -/
def groupInputs (g : List EffectDescriptor) : Finset InputFlag :=
  (g.flatMap (·.requiredInputs)).toFinset

/-- Modelled from the spec: merge compatibility check of the Merge
Planner — the next descriptor may join the current group only if no
member's merge constraints are violated and the combined required-input
set is satisfiable by a single pass's bindings. -/
def canJoin (cur : List EffectDescriptor) (d : EffectDescriptor) : Bool :=
  d.mergeable && cur.all (·.mergeable) &&
    decide ((groupInputs (cur ++ [d])).card ≤ maxBindings)

/-- Modelled from the spec: the greedy left-to-right grouping loop of the
Merge Planner — "grow the current group while the next descriptor is
compatible; otherwise close the group and start a new one". -/
def mergeGroupsFrom (cur : List EffectDescriptor) :
    List EffectDescriptor → List (List EffectDescriptor)
  | [] => [cur]
  | d :: rest =>
      if canJoin cur d then mergeGroupsFrom (cur ++ [d]) rest
      else cur :: mergeGroupsFrom [d] rest

/-- Modelled from the spec: the Merge Planner — partitions an ordered
list of enabled Effect Descriptors into ordered groups. -/
def mergeGroups : List EffectDescriptor → List (List EffectDescriptor)
  | [] => []
  | d :: rest => mergeGroupsFrom [d] rest

/-- The enabled sub-list of a declared descriptor list ("disabled effects
are skipped entirely without being removed from the declared order"). -/
def enabledList (l : List EffectDescriptor) : List EffectDescriptor :=
  l.filter (·.enabled)

/-- Modelled from the spec: the full plan of a declared descriptor list —
the Merge Planner runs on the ordered list of enabled descriptors. -/
def mergePlan (l : List EffectDescriptor) : List (List EffectDescriptor) :=
  mergeGroups (enabledList l)

/-!  Pass Scheduler: render-target wiring. -/

/-- Modelled from the spec: render-target handles seen by the Pass
Scheduler — the externally supplied scene color, the two ping-pong
buffers, and the visible output. -/
inductive Target where
  | sceneColor
  | bufA
  | bufB
  | screen
deriving DecidableEq, Repr

/-- The ping-pong buffer written by the pass at position `i`: buffer A
and buffer B alternate. -/
def pingPong (i : Nat) : Target :=
  if i % 2 = 0 then Target.bufA else Target.bufB

/-- Modelled from the spec: input target of pass `i` — "First pass reads
the scene's rendered color"; "each subsequent pass reads the previous
pass's output". -/
def passInput (i : Nat) : Target :=
  if i = 0 then Target.sceneColor else pingPong (i - 1)

/-- Modelled from the spec: output target of pass `i` out of `n` — "the
final pass writes directly to the visible output (screen) instead of a
buffer"; earlier passes write the alternating ping-pong buffer. -/
def passOutputTarget (n i : Nat) : Target :=
  if i = n - 1 then Target.screen else pingPong i

/-- Modelled from the spec: the Pass Scheduler's wiring for a frame of
`n` passes, as ordered (input, output) target pairs. -/
def schedule (n : Nat) : List (Target × Target) :=
  (List.range n).map (fun i => (passInput i, passOutputTarget n i))

/-!  Per-pixel semantics for the round-trip (merged vs isolated) claim.
Colors are modelled one channel at a time as exact rationals, so
"identical within floating-point tolerance" becomes exact equality. -/

/-- Modelled from the spec: how one descriptor's computed color combines
with the accumulated color — mix toward the blended value by `opacity`;
SKIP contributes no visible output. -/
def blendApply (bf : BlendFunction) (o : ℚ) (prev applied : ℚ) : ℚ :=
  match bf with
  | BlendFunction.NORMAL => prev + o * (applied - prev)
  | BlendFunction.ADD => prev + o * ((prev + applied) - prev)
  | BlendFunction.MULTIPLY => prev + o * (prev * applied - prev)
  | BlendFunction.SKIP => prev

/-- Modelled from the spec: per-pixel semantics of one effect — a
fixed-signature apply entry point reading an input color and producing an
output color, plus its blend settings. -/
structure EffectSem where
  apply : ℚ → ℚ
  blendFunction : BlendFunction
  opacity : ℚ

/-- Output color of one descriptor step: its apply call, with blending
applied immediately after ("blending is applied after each descriptor's
apply call, not deferred to the end"). -/
def stepColor (e : EffectSem) (c : ℚ) : ℚ :=
  blendApply e.blendFunction e.opacity c (e.apply c)

/-- Modelled from the spec: the Shader Synthesizer's merged program for a
group — "Thread a single running color value through the group", blending
after each apply call. -/
def runMerged (g : List EffectSem) (input : ℚ) : ℚ :=
  g.foldl (fun c e => stepColor e c) input

/-- Contents of the scheduler's render targets for one pixel. -/
structure Store where
  scene : ℚ
  a : ℚ
  b : ℚ
  screen : ℚ
deriving DecidableEq, Repr

/-- Read a target's pixel value. -/
def Store.read (st : Store) : Target → ℚ
  | Target.sceneColor => st.scene
  | Target.bufA => st.a
  | Target.bufB => st.b
  | Target.screen => st.screen

/-- Write a target's pixel value. -/
def Store.write (st : Store) : Target → ℚ → Store
  | Target.sceneColor, v => { st with scene := v }
  | Target.bufA, v => { st with a := v }
  | Target.bufB, v => { st with b := v }
  | Target.screen, v => { st with screen := v }

/-- Modelled from the spec: execute each effect as its own isolated pass
under the Pass Scheduler's wiring, starting at pass position `i` of `n`:
each pass reads its input target, applies the effect with blending, and
writes its output target. -/
def execPassesFrom (st : Store) (i n : Nat) : List EffectSem → Store
  | [] => st
  | e :: rest =>
      execPassesFrom
        (st.write (passOutputTarget n i) (stepColor e (st.read (passInput i))))
        (i + 1) n rest

/-- Modelled from the spec: run every effect of the group as its own
isolated pass in order, from the externally supplied scene color; the
result is what the final pass wrote to the screen. -/
def execIsolated (es : List EffectSem) (scene : ℚ) : ℚ :=
  (execPassesFrom ⟨scene, 0, 0, 0⟩ 0 es.length es).read Target.screen

/-!  Composer: orchestrator state machine. -/

/-- Modelled from the spec: Pass kind — MERGED (one or more descriptors
sharing a compiled program) or ISOLATED (single descriptor requiring its
own program/pass). -/
inductive PassKind where
  | MERGED
  | ISOLATED
deriving DecidableEq, Repr

/-- Modelled from the spec: a post-planning Pass — its member descriptors
and kind; concrete target wiring is assigned by the Pass Scheduler from
the pass's position (`schedule`). -/
structure Pass where
  members : List EffectDescriptor
  kind : PassKind
deriving DecidableEq, Repr

/-- Modelled from the spec: the Shader Synthesizer turns each planned
group into one compiled Pass. -/
def compilePasses (groups : List (List EffectDescriptor)) :
    List Pass :=
  groups.map (fun g =>
    { members := g
      kind :=
        if g.length = 1 && !(g.all (·.mergeable)) then PassKind.ISOLATED
        else PassKind.MERGED })

/-- Error reported by a public Composer operation. -/
inductive ComposerError where
  | usageError
deriving DecidableEq, Repr

/-- Modelled from the spec: the Composer — owns the declared descriptor
list, the current pass sequence, a dirty flag for the plan, and a
disposed flag ("after `dispose`, the Composer is unusable"). -/
structure Composer where
  descriptors : List EffectDescriptor
  passes : List Pass
  planDirty : Bool
  disposed : Bool
deriving DecidableEq, Repr

/-- A fresh Composer with no effects. -/
def Composer.new : Composer :=
  { descriptors := [], passes := [], planDirty := true, disposed := false }

/-- Modelled from the spec: a replan regenerates the pass list wholesale —
Merge Planner then Shader Synthesizer — and clears the dirty flag. -/
def Composer.replan (c : Composer) : Composer :=
  { c with passes := compilePasses (mergePlan c.descriptors),
           planDirty := false }

/-- What one `render` call executed: one renderer draw per pass, the
scheduler's target wiring, and the effect-parameter uniforms (opacity per
effect id) read at the start of the call. -/
structure Frame where
  draws : Nat
  wiring : List (Target × Target)
  opacities : List (Nat × ℚ)
  deltaTime : ℚ
deriving DecidableEq, Repr

/-- Modelled from the spec: `render(deltaTime)` — a usage error after
`dispose`; otherwise a dirty plan first triggers Merge Planner → Shader
Synthesizer → Pass Scheduler synchronously, then the current pass
sequence executes with its wiring and the uniforms read at the start of
the call. -/
def Composer.render (c : Composer) (dt : ℚ) :
    Except ComposerError (Composer × Frame) :=
  if c.disposed then Except.error ComposerError.usageError
  else
    let c1 := if c.planDirty then c.replan else c
    Except.ok (c1,
      { draws := c1.passes.length
        wiring := schedule c1.passes.length
        opacities := c1.descriptors.map (fun d => (d.id, d.opacity))
        deltaTime := dt })

/-- Modelled from the spec: `addEffect` — a usage error after `dispose`;
otherwise appends the descriptor to the declared order and marks the plan
dirty. -/
def Composer.addEffect (c : Composer) (d : EffectDescriptor) :
    Except ComposerError Composer :=
  if c.disposed then Except.error ComposerError.usageError
  else Except.ok { c with descriptors := c.descriptors ++ [d],
                          planDirty := true }

/-- Modelled from the spec: `removeEffect` — a usage error after
`dispose`; otherwise removes the descriptor from the declared order and
marks the plan dirty. -/
def Composer.removeEffect (c : Composer) (i : Nat) :
    Except ComposerError Composer :=
  if c.disposed then Except.error ComposerError.usageError
  else Except.ok { c with descriptors := c.descriptors.filter (·.id ≠ i),
                          planDirty := true }

/-- Set the `enabled` flag of every descriptor with the given id. -/
def setEnabledList (l : List EffectDescriptor) (i : Nat) (b : Bool) :
    List EffectDescriptor :=
  l.map (fun d => if d.id = i then { d with enabled := b } else d)

/-- Modelled from the spec: `setEffectEnabled` — a usage error after
`dispose`; otherwise mutates the flag in place, and a `setEnabled`
change marks the plan dirty. -/
def Composer.setEffectEnabled (c : Composer) (i : Nat) (b : Bool) :
    Except ComposerError Composer :=
  if c.disposed then Except.error ComposerError.usageError
  else
    let ds := setEnabledList c.descriptors i b
    Except.ok { c with descriptors := ds,
                       planDirty := c.planDirty || decide (ds ≠ c.descriptors) }

/-- Embedded from `src/demo/src/demos/ColorDepthDemo.js` (opacity
handler): `blendMode.opacity.value = params.opacity` is a plain effect
parameter write; it does not touch the pass list or the plan. -/
def Composer.setOpacity (c : Composer) (i : Nat) (v : ℚ) : Composer :=
  { c with descriptors :=
      c.descriptors.map (fun d => if d.id = i then { d with opacity := v } else d) }

/-- Embedded from `src/demo/src/demos/ColorDepthDemo.js` (blend mode
handler): `blendMode.blendFunction = ...` is a plain property write on
the effect object; it does not notify the composer, which is why the demo
explicitly calls `pass.recompile()` right after it. -/
def Composer.setBlendFunction (c : Composer) (i : Nat) (bf : BlendFunction) :
    Composer :=
  { c with descriptors :=
      (c.descriptors.map
        (fun d => if d.id = i then { d with blendFunction := bf } else d)) }

/-- Embedded from `src/demo/src/demos/ColorDepthDemo.js`:
`pass.recompile()` — the caller-initiated request to regenerate the
compiled program, modelled as marking the plan dirty so the next render
rebuilds it. -/
def Composer.recompile (c : Composer) : Composer :=
  { c with planDirty := true }

/-- Embedded from `src/demo/src/demos/ColorDepthDemo.js` lines 186-191:
the demo's blend-mode change handler assigns the blend function and then
explicitly recompiles the pass. -/
def demoBlendModeChange (c : Composer) (i : Nat) (bf : BlendFunction) :
    Composer :=
  (c.setBlendFunction i bf).recompile

/-- Modelled from the spec: `dispose` — releases every pass's compiled
program and render target and leaves the Composer unusable. -/
def Composer.dispose (c : Composer) : Composer :=
  { c with passes := [], disposed := true }

/-!  RealisticBokehPass, as exercised by the unit test in
`src/unnamed/part_000`. -/

/-- Error raised by a pass operation. -/
inductive PassError where
  | alreadyDisposed
deriving DecidableEq, Repr

/-- Modelled from the spec: the `RealisticBokehPass` implementation is
not under `src/`; per the test and the Pass lifecycle, a no-argument
construction allocates its own resources (fullscreen material) without
needing a renderer, and `dispose` releases them. -/
structure RealisticBokehPass where
  materialAllocated : Bool
  disposed : Bool
deriving DecidableEq, Repr

/-- Modelled from the spec: no-argument construction
(`new RealisticBokehPass()`), before any rendering or renderer
initialization. -/
def RealisticBokehPass.new : RealisticBokehPass :=
  { materialAllocated := true, disposed := false }

/-- Modelled from the spec: `dispose()` releases the pass's resources;
fallible code is modelled with `Except`, so "does not throw" is
`Except.ok`. -/
def RealisticBokehPass.dispose (p : RealisticBokehPass) :
    Except PassError RealisticBokehPass :=
  if p.disposed then Except.error PassError.alreadyDisposed
  else Except.ok { materialAllocated := false, disposed := true }

/-- Truthiness of the pass object in the embedding: a JavaScript object
reference is always truthy (`t.truthy(object)` in the test). -/
def RealisticBokehPass.truthy (_ : RealisticBokehPass) : Bool := true

/-!  Concrete sample data used by the witnesses. -/

/-- Sample mergeable, enabled descriptor A. -/
def dA : EffectDescriptor :=
  { id := 0, enabled := true, blendFunction := BlendFunction.NORMAL,
    opacity := 1, fragmentCode := "a", requiredInputs := [InputFlag.COLOR],
    mergeConstraints := MergeConstraints.none }

/-- Sample mergeable, enabled descriptor B. -/
def dB : EffectDescriptor :=
  { id := 1, enabled := true, blendFunction := BlendFunction.NORMAL,
    opacity := 1, fragmentCode := "b",
    requiredInputs := [InputFlag.COLOR, InputFlag.DEPTH],
    mergeConstraints := MergeConstraints.none }

/-- Sample enabled descriptor C carrying an isolation constraint. -/
def dC : EffectDescriptor :=
  { id := 2, enabled := true, blendFunction := BlendFunction.NORMAL,
    opacity := 1, fragmentCode := "c", requiredInputs := [InputFlag.COLOR],
    mergeConstraints := { isolated := true, pinFirst := false, pinLast := false } }

/-- Sample mergeable, enabled descriptor D. -/
def dD : EffectDescriptor :=
  { id := 3, enabled := true, blendFunction := BlendFunction.NORMAL,
    opacity := 1, fragmentCode := "d", requiredInputs := [InputFlag.COLOR],
    mergeConstraints := MergeConstraints.none }

/-- Sample disabled descriptor. -/
def dOff : EffectDescriptor :=
  { id := 4, enabled := false, blendFunction := BlendFunction.NORMAL,
    opacity := 1, fragmentCode := "e", requiredInputs := [InputFlag.COLOR],
    mergeConstraints := MergeConstraints.none }

/-- A sample live composer with a clean (non-dirty) plan over A and B. -/
def sampleComposer : Composer :=
  { descriptors := [dA, dB], passes := compilePasses (mergePlan [dA, dB]),
    planDirty := false, disposed := false }

/-- Sample effect semantics: half-strength brighten. -/
def semAdd : EffectSem :=
  { apply := fun c => c + 1, blendFunction := BlendFunction.NORMAL,
    opacity := 1/2 }

/-- Sample effect semantics: full-strength doubling. -/
def semMul : EffectSem :=
  { apply := fun c => c * 2, blendFunction := BlendFunction.NORMAL,
    opacity := 1 }

/-- Sample effect semantics: darken by three. -/
def semSub : EffectSem :=
  { apply := fun c => c - 3, blendFunction := BlendFunction.NORMAL,
    opacity := 1 }

/-!  Merge Planner lemmas. -/

/-- A descriptor with no merge constraints is mergeable. -/
theorem EffectDescriptor.mergeable_of_none (d : EffectDescriptor)
    (h : d.mergeConstraints = MergeConstraints.none) : d.mergeable = true := by
  simp [EffectDescriptor.mergeable, h, MergeConstraints.none]

/-- An isolated descriptor is not mergeable. -/
theorem EffectDescriptor.not_mergeable_of_isolated (d : EffectDescriptor)
    (h : d.mergeConstraints.isolated = true) : d.mergeable = false := by
  simp [EffectDescriptor.mergeable, h]

/-- The combined input set of any group fits in a single pass's bindings:
the capability-flag set is closed and smaller than the binding budget. -/
theorem groupInputs_card_le (g : List EffectDescriptor) :
    (groupInputs g).card ≤ maxBindings := by
  have h1 : (groupInputs g).card ≤ Fintype.card InputFlag :=
    Finset.card_le_univ _
  have h2 : Fintype.card InputFlag ≤ maxBindings := by decide
  exact le_trans h1 h2

/-- A mergeable descriptor can always join a group of mergeable
descriptors. -/
theorem canJoin_of_mergeable (cur : List EffectDescriptor)
    (d : EffectDescriptor) (hd : d.mergeable = true)
    (hcur : cur.all (·.mergeable) = true) : canJoin cur d = true := by
  simp [canJoin, hd, hcur, groupInputs_card_le]

/-- A non-mergeable descriptor can never join any group. -/
theorem canJoin_false_of_not_mergeable (cur : List EffectDescriptor)
    (d : EffectDescriptor) (hd : d.mergeable = false) :
    canJoin cur d = false := by
  simp [canJoin, hd]

/-- The greedy loop absorbs a run of mergeable descriptors into the
current group. -/
theorem mergeGroupsFrom_append (xs : List EffectDescriptor) :
    ∀ (cur ys : List EffectDescriptor), cur.all (·.mergeable) = true →
      xs.all (·.mergeable) = true →
      mergeGroupsFrom cur (xs ++ ys) = mergeGroupsFrom (cur ++ xs) ys := by
  induction xs with
  | nil => intro cur ys _ _; simp
  | cons x xs ih =>
    intro cur ys hcur hxs
    have hx : x.mergeable = true := by
      simp [List.all_cons] at hxs; exact hxs.1
    have hxs' : xs.all (·.mergeable) = true := by
      simp [List.all_cons] at hxs
      rw [List.all_eq_true]; intro a ha; exact hxs.2 a ha
    have hcur' : (cur ++ [x]).all (·.mergeable) = true := by
      simp [List.all_append, hcur, hx]
    rw [List.cons_append]
    simp only [mergeGroupsFrom, canJoin_of_mergeable cur x hx hcur, if_true]
    rw [ih (cur ++ [x]) ys hcur' hxs']
    simp [List.append_assoc]

/-- A nonempty group of mergeable descriptors followed only by mergeable
descriptors collapses into one group. -/
theorem mergeGroupsFrom_run (cur xs : List EffectDescriptor)
    (hcur : cur.all (·.mergeable) = true)
    (hxs : xs.all (·.mergeable) = true) :
    mergeGroupsFrom cur xs = [cur ++ xs] := by
  have h := mergeGroupsFrom_append xs cur [] hcur hxs
  simpa [mergeGroupsFrom] using h

/-- Starting a group at an isolated descriptor closes it immediately;
the mergeable remainder forms a single further group. -/
theorem mergeGroupsFrom_iso_head (d : EffectDescriptor)
    (post : List EffectDescriptor) (hd : d.mergeable = false)
    (hpost : post.all (·.mergeable) = true) :
    mergeGroupsFrom [d] post =
      [d] :: (if post = [] then [] else [post]) := by
  cases post with
  | nil => simp [mergeGroupsFrom]
  | cons e rest =>
    have he : e.mergeable = true := by
      simp [List.all_cons] at hpost; exact hpost.1
    have hrest : rest.all (·.mergeable) = true := by
      simp [List.all_cons] at hpost
      rw [List.all_eq_true]; intro a ha; exact hpost.2 a ha
    have hcj : canJoin [d] e = false := by simp [canJoin, hd]
    simp only [mergeGroupsFrom, hcj, Bool.false_eq_true, if_false]
    rw [mergeGroupsFrom_run [e] rest (by simp [he]) hrest]
    simp

/-- The enabled sub-list of an all-enabled list is the list itself. -/
theorem enabledList_eq_self (l : List EffectDescriptor)
    (hen : ∀ d ∈ l, d.enabled = true) : enabledList l = l := by
  rw [enabledList, List.filter_eq_self]
  intro d hd
  simp [hen d hd]

/-- C1: For every ordered list of N enabled effect descriptors (N ≥ 1)
that are pairwise mergeable and carry no merge constraints, the Merge
Planner produces exactly one group, i.e. one pass. -/
theorem mergePlan_unconstrained_single_group
    (l : List EffectDescriptor) (hne : l ≠ [])
    (hen : ∀ d ∈ l, d.enabled = true)
    (hc : ∀ d ∈ l, d.mergeConstraints = MergeConstraints.none) :
    mergePlan l = [l] := by
  rw [mergePlan, enabledList_eq_self l hen]
  cases l with
  | nil => exact absurd rfl hne
  | cons d rest =>
    have hd : d.mergeable = true :=
      EffectDescriptor.mergeable_of_none d (hc d (List.mem_cons_self d rest))
    have hall : rest.all (·.mergeable) = true := by
      rw [List.all_eq_true]
      intro x hx
      exact EffectDescriptor.mergeable_of_none x
        (hc x (List.mem_cons_of_mem d hx))
    rw [mergeGroups]
    exact mergeGroupsFrom_run [d] rest (by simp [hd]) hall

/-- Witness for C1 at the concrete two-descriptor list [A, B]. -/
theorem mergePlan_unconstrained_single_group_witness :
    ([dA, dB] ≠ ([] : List EffectDescriptor)) ∧ mergePlan [dA, dB] = [[dA, dB]] :=
  ⟨by decide,
    mergePlan_unconstrained_single_group [dA, dB] (by decide) (by decide)
      (by decide)⟩

/-- C2: a single isolated descriptor at position k in an otherwise
mergeable enabled list splits the plan into the group before it, the
isolated group, and the group after it, empty groups omitted; rendering
the resulting plan issues one renderer draw call per group. -/
theorem mergePlan_isolated_splits
    (pre post : List EffectDescriptor) (d : EffectDescriptor) (dt : ℚ)
    (hen : ∀ x ∈ pre ++ d :: post, x.enabled = true)
    (hpre : ∀ x ∈ pre, x.mergeConstraints = MergeConstraints.none)
    (hpost : ∀ x ∈ post, x.mergeConstraints = MergeConstraints.none)
    (hiso : d.mergeConstraints.isolated = true) :
    mergePlan (pre ++ d :: post) =
      (if pre = [] then [] else [pre]) ++ [[d]] ++
        (if post = [] then [] else [post])
    ∧ (Composer.render
          { descriptors := pre ++ d :: post, passes := [],
            planDirty := true, disposed := false } dt).map
            (fun p => p.2.draws)
        = Except.ok
            ((if pre = [] then 0 else 1) + 1 +
              (if post = [] then 0 else 1)) := by
  have hd : d.mergeable = false :=
    EffectDescriptor.not_mergeable_of_isolated d hiso
  have hpostall : post.all (·.mergeable) = true := by
    rw [List.all_eq_true]
    intro x hx
    exact EffectDescriptor.mergeable_of_none x (hpost x hx)
  have hplan : mergePlan (pre ++ d :: post) =
      (if pre = [] then [] else [pre]) ++ [[d]] ++
        (if post = [] then [] else [post]) := by
    rw [mergePlan, enabledList_eq_self _ hen]
    cases pre with
    | nil =>
      simp only [List.nil_append, if_pos rfl]
      rw [mergeGroups]
      rw [mergeGroupsFrom_iso_head d post hd hpostall]
      simp
    | cons p pre2 =>
      have hp : p.mergeable = true :=
        EffectDescriptor.mergeable_of_none p
          (hpre p (List.mem_cons_self p pre2))
      have hpre2 : pre2.all (·.mergeable) = true := by
        rw [List.all_eq_true]
        intro x hx
        exact EffectDescriptor.mergeable_of_none x
          (hpre x (List.mem_cons_of_mem p hx))
      rw [List.cons_append, mergeGroups]
      rw [mergeGroupsFrom_append pre2 [p] (d :: post) (by simp [hp]) hpre2]
      have hcj : canJoin ([p] ++ pre2) d = false :=
        canJoin_false_of_not_mergeable _ d hd
      simp only [mergeGroupsFrom, hcj, Bool.false_eq_true, if_false]
      rw [mergeGroupsFrom_iso_head d post hd hpostall]
      simp
  refine ⟨hplan, ?_⟩
  rw [Composer.render]
  simp only [if_neg (by simp : ¬ (false = true))]
  simp only [Composer.replan, if_pos rfl, Except.map]
  simp only [compilePasses, List.length_map, hplan]
  cases hpre2 : pre <;> cases hpost2 : post <;> simp

/-- Witness for C2 at the concrete scenario [A, B, C(isolated), D]:
passes [{A,B}, {C}, {D}] and 3 renderer draw calls per frame. -/
theorem mergePlan_isolated_splits_witness :
    (dC.mergeConstraints.isolated = true)
    ∧ (mergePlan ([dA, dB] ++ dC :: [dD]) =
        (if ([dA, dB] : List EffectDescriptor) = [] then [] else [[dA, dB]]) ++
          [[dC]] ++ (if ([dD] : List EffectDescriptor) = [] then [] else [[dD]])
        ∧ (Composer.render
              { descriptors := [dA, dB] ++ dC :: [dD], passes := [],
                planDirty := true, disposed := false } 0).map
              (fun p => p.2.draws)
            = Except.ok
                ((if ([dA, dB] : List EffectDescriptor) = [] then 0 else 1) + 1 +
                  (if ([dD] : List EffectDescriptor) = [] then 0 else 1))) :=
  ⟨by decide,
    mergePlan_isolated_splits [dA, dB] [dD] dC 0 (by decide) (by decide)
      (by decide) (by decide)⟩

/-!  Plan partition lemmas. -/

/-- The greedy loop's groups concatenate back to the input, in order. -/
theorem mergeGroupsFrom_flatten (xs : List EffectDescriptor) :
    ∀ cur, (mergeGroupsFrom cur xs).flatten = cur ++ xs := by
  induction xs with
  | nil => intro cur; simp [mergeGroupsFrom]
  | cons d rest ih =>
    intro cur
    by_cases h : canJoin cur d = true
    · simp [mergeGroupsFrom, h, ih]
    · simp [mergeGroupsFrom, h, ih]

/-- The Merge Planner's groups concatenate back to its input, in order. -/
theorem mergeGroups_flatten (l : List EffectDescriptor) :
    (mergeGroups l).flatten = l := by
  cases l with
  | nil => simp [mergeGroups]
  | cons d rest => simp [mergeGroups, mergeGroupsFrom_flatten]

/-- The plan's groups concatenate to the enabled sub-list of the declared
order. -/
theorem mergePlan_flatten (l : List EffectDescriptor) :
    (mergePlan l).flatten = enabledList l := by
  rw [mergePlan, mergeGroups_flatten]

/-- In a family of groups whose concatenation has no duplicates, an
element of the concatenation belongs to exactly one group. -/
theorem countP_groups_eq_one {α : Type} [DecidableEq α]
    (GS : List (List α)) (d : α) (hnd : GS.flatten.Nodup)
    (hd : d ∈ GS.flatten) :
    GS.countP (fun g => decide (d ∈ g)) = 1 := by
  induction GS with
  | nil => simp at hd
  | cons g rest ih =>
    rw [List.flatten_cons] at hnd hd
    rcases List.nodup_append.mp hnd with ⟨hg, hrest, hdisj⟩
    rw [List.countP_cons]
    by_cases hmem : d ∈ g
    · have h2 : d ∉ rest.flatten := fun hc => hdisj hmem hc
      have hz : rest.countP (fun g2 => decide (d ∈ g2)) = 0 := by
        rw [List.countP_eq_zero]
        intro g2 hg2
        simp only [decide_eq_true_eq]
        exact fun hmem2 => h2 (List.mem_flatten.mpr ⟨g2, hg2, hmem2⟩)
      simp [hz, hmem]
    · have hd2 : d ∈ rest.flatten := by
        rcases List.mem_append.mp hd with h | h
        · exact absurd h hmem
        · exact h
      simp [hmem, ih hrest hd2]

/-- C3: after every replan, the passes partition the enabled descriptors —
every enabled Effect Descriptor lies in exactly one group, and
concatenating the groups in pass order yields exactly the declared
descriptor order restricted to enabled descriptors, so pass order is a
total order consistent with the declared order; this holds for every
declared descriptor list, hence for every reachable plan state. -/
theorem mergePlan_partition_invariant (l : List EffectDescriptor)
    (hnd : (enabledList l).Nodup) :
    (mergePlan l).flatten = enabledList l
    ∧ ∀ d ∈ l, d.enabled = true →
        (mergePlan l).countP (fun g => decide (d ∈ g)) = 1 := by
  refine ⟨mergePlan_flatten l, ?_⟩
  intro d hd hen
  apply countP_groups_eq_one
  · rw [mergePlan_flatten]; exact hnd
  · rw [mergePlan_flatten]
    exact List.mem_filter.mpr ⟨hd, by simp [hen]⟩

/-- Witness for C3 at the concrete declared list [A, off, C]. -/
theorem mergePlan_partition_invariant_witness :
    (enabledList [dA, dOff, dC]).Nodup
    ∧ ((mergePlan [dA, dOff, dC]).flatten = enabledList [dA, dOff, dC]
        ∧ ∀ d ∈ [dA, dOff, dC], d.enabled = true →
            (mergePlan [dA, dOff, dC]).countP (fun g => decide (d ∈ g)) = 1) :=
  ⟨by decide, mergePlan_partition_invariant [dA, dOff, dC] (by decide)⟩

/-!  Round-trip: merged program vs isolated passes. -/

/-- Reading a target right after writing it returns the written value. -/
theorem Store.read_write_same (st : Store) (t : Target) (v : ℚ) :
    (st.write t v).read t = v := by
  cases t <;> rfl

/-- The merged program processes the head descriptor first and threads
the blended running color into the rest of the group. -/
theorem runMerged_cons (e : EffectSem) (es : List EffectSem) (v : ℚ) :
    runMerged (e :: es) v = runMerged es (stepColor e v) := rfl

/-- Executing the remaining isolated passes from position `i ≥ 1` of `n`
produces, on the screen, the merged result applied to the buffer written
by the previous pass. -/
theorem execPassesFrom_screen (es : List EffectSem) :
    ∀ (st : Store) (i n : Nat), i + es.length = n → 1 ≤ i → es ≠ [] →
      (execPassesFrom st i n es).read Target.screen =
        runMerged es (st.read (pingPong (i - 1))) := by
  induction es with
  | nil => intro st i n _ _ hne; exact absurd rfl hne
  | cons e rest ih =>
    intro st i n h hi _
    cases rest with
    | nil =>
      have hn : i = n - 1 := by simp at h; omega
      have hout : passOutputTarget n i = Target.screen := by
        simp [passOutputTarget, hn]
      have hin : passInput i = pingPong (i - 1) := by
        rw [passInput, if_neg (by omega)]
      simp only [execPassesFrom, hout, hin]
      rw [Store.read_write_same]
      rfl
    | cons e2 rest2 =>
      have hne2 : i ≠ n - 1 := by simp at h; omega
      have hout : passOutputTarget n i = pingPong i := by
        rw [passOutputTarget, if_neg hne2]
      have hin : passInput i = pingPong (i - 1) := by
        rw [passInput, if_neg (by omega)]
      rw [execPassesFrom, hout, hin]
      rw [ih _ (i + 1) n (by simp at h ⊢; omega) (by omega) (by simp)]
      have hread : i + 1 - 1 = i := by omega
      rw [hread, Store.read_write_same, runMerged_cons]
      rfl

/-- C4: for a group of descriptors whose blend functions are all NORMAL,
running the synthesized merged program — which applies each descriptor's
blend function and opacity immediately after that descriptor's apply
call — produces, per pixel, exactly the output of running each
descriptor as its own isolated pass in the same order under the ping-pong
schedule (exact equality of the rational model, hence within any
floating-point tolerance). -/
theorem merged_equals_isolated (g : List EffectSem) (scene : ℚ)
    (hne : g ≠ [])
    (hbf : ∀ e ∈ g, e.blendFunction = BlendFunction.NORMAL) :
    execIsolated g scene = runMerged g scene := by
  cases g with
  | nil => exact absurd rfl hne
  | cons e rest =>
    rw [execIsolated]
    cases rest with
    | nil =>
      have h1 : passOutputTarget [e].length 0 = Target.screen := by
        simp [passOutputTarget]
      have h2 : passInput 0 = Target.sceneColor := by
        rw [passInput, if_pos rfl]
      rw [execPassesFrom, h1, h2, execPassesFrom, Store.read_write_same]
      rfl
    | cons e2 rest2 =>
      have hlen : (e :: e2 :: rest2).length = rest2.length + 2 := by simp
      have hout : passOutputTarget (e :: e2 :: rest2).length 0 = pingPong 0 := by
        rw [passOutputTarget, if_neg (by omega)]
      have hin : passInput 0 = Target.sceneColor := by
        rw [passInput, if_pos rfl]
      rw [execPassesFrom, hout, hin]
      rw [execPassesFrom_screen (e2 :: rest2) _ 1 ((e :: e2 :: rest2).length)
        (by simp; omega) (by omega) (by simp)]
      simp only [Nat.sub_self]
      rw [Store.read_write_same, runMerged_cons]
      rfl

/-- Witness for C4 at the concrete NORMAL-blend group
[semAdd, semMul, semSub] on scene color 5. -/
theorem merged_equals_isolated_witness :
    (([semAdd, semMul, semSub] : List EffectSem) ≠ [])
    ∧ execIsolated [semAdd, semMul, semSub] 5 =
        runMerged [semAdd, semMul, semSub] 5 :=
  ⟨by simp,
    merged_equals_isolated [semAdd, semMul, semSub] 5 (by simp)
      (by intro e he
          simp only [List.mem_cons, List.not_mem_nil, or_false] at he
          rcases he with rfl | rfl | rfl <;> rfl)⟩

/-!  Enable / disable. -/

/-- Disabling an effect removes exactly that effect from the enabled
sub-list, keeping the remaining effects in their relative order. -/
theorem enabledList_disable (l : List EffectDescriptor) (i : Nat) :
    enabledList (setEnabledList l i false) =
      (enabledList l).filter (fun d => d.id ≠ i) := by
  induction l with
  | nil => rfl
  | cons d l ih =>
    simp only [setEnabledList, List.map_cons, enabledList,
      List.filter_cons] at ih ⊢
    by_cases hid : d.id = i
    · cases hde : d.enabled <;> simp [hid, hde, ih]
    · cases hde : d.enabled <;> simp [hid, hde, ih]

/-- Re-enabling an effect whose descriptors were all enabled restores the
original declared list. -/
theorem setEnabledList_restore (l : List EffectDescriptor) (i : Nat)
    (h : ∀ d ∈ l, d.id = i → d.enabled = true) :
    setEnabledList (setEnabledList l i false) i true = l := by
  induction l with
  | nil => rfl
  | cons d l ih =>
    have ih2 := ih (fun x hx hxi => h x (List.mem_cons_of_mem d hx) hxi)
    by_cases hid : d.id = i
    · have hen : d.enabled = true := h d (List.mem_cons_self d l) hid
      simp only [setEnabledList, List.map_cons] at ih2 ⊢
      rw [if_pos hid]
      rw [if_pos (show ({d with enabled := false} :
            EffectDescriptor).id = i from hid)]
      have hd2 : ({({d with enabled := false} : EffectDescriptor) with
          enabled := true} : EffectDescriptor) = d := by
        cases d
        simp_all
      rw [hd2]
      exact congrArg (d :: ·) ih2
    · simp only [setEnabledList, List.map_cons] at ih2 ⊢
      rw [if_neg hid, if_neg hid]
      exact congrArg (d :: ·) ih2

/-- C5: disabling a registered effect removes it from all subsequent
plans without changing the relative order of the remaining effects (the
plan's groups concatenate to the enabled list minus that effect), and
re-enabling it restores the declared list — hence its original declared
position and the original plan. -/
theorem disable_enable_roundtrip (l : List EffectDescriptor) (i : Nat)
    (h : ∀ d ∈ l, d.id = i → d.enabled = true) :
    (mergePlan (setEnabledList l i false)).flatten =
      (enabledList l).filter (fun d => d.id ≠ i)
    ∧ setEnabledList (setEnabledList l i false) i true = l
    ∧ mergePlan (setEnabledList (setEnabledList l i false) i true) =
        mergePlan l := by
  refine ⟨?_, setEnabledList_restore l i h, ?_⟩
  · rw [mergePlan_flatten, enabledList_disable]
  · rw [setEnabledList_restore l i h]

/-- Witness for C5 at the concrete declared list [A, B, D], toggling B. -/
theorem disable_enable_roundtrip_witness :
    (∀ d ∈ [dA, dB, dD], d.id = 1 → d.enabled = true)
    ∧ ((mergePlan (setEnabledList [dA, dB, dD] 1 false)).flatten =
          (enabledList [dA, dB, dD]).filter (fun d => d.id ≠ 1)
        ∧ setEnabledList (setEnabledList [dA, dB, dD] 1 false) 1 true =
            [dA, dB, dD]
        ∧ mergePlan (setEnabledList (setEnabledList [dA, dB, dD] 1 false) 1 true) =
            mergePlan [dA, dB, dD]) :=
  ⟨by decide, disable_enable_roundtrip [dA, dB, dD] 1 (by decide)⟩

/-!  Composer lifecycle. -/

/-- C6: on a disposed Composer every public operation — render,
addEffect, removeEffect, setEffectEnabled — reports a usage error rather
than silently proceeding, and render returns no executed frame, so no
renderer draw call is executed. -/
theorem disposed_operations_usage_error (c : Composer) (dt : ℚ) (i : Nat)
    (b : Bool) (d : EffectDescriptor) (h : c.disposed = true) :
    c.render dt = Except.error ComposerError.usageError
    ∧ (∀ c2 f, c.render dt ≠ Except.ok (c2, f))
    ∧ c.addEffect d = Except.error ComposerError.usageError
    ∧ c.removeEffect i = Except.error ComposerError.usageError
    ∧ c.setEffectEnabled i b = Except.error ComposerError.usageError := by
  have hr : c.render dt = Except.error ComposerError.usageError := by
    rw [Composer.render, if_pos h]
  refine ⟨hr, ?_, ?_, ?_, ?_⟩
  · intro c2 f hc
    rw [hr] at hc
    exact Except.noConfusion hc
  · rw [Composer.addEffect, if_pos h]
  · rw [Composer.removeEffect, if_pos h]
  · rw [Composer.setEffectEnabled, if_pos h]

/-- Witness for C6: dispose the sample composer, then render. -/
theorem disposed_operations_usage_error_witness :
    (sampleComposer.dispose).disposed = true
    ∧ ((sampleComposer.dispose).render 0 =
          Except.error ComposerError.usageError
        ∧ (∀ c2 f, (sampleComposer.dispose).render 0 ≠ Except.ok (c2, f))
        ∧ (sampleComposer.dispose).addEffect dD =
            Except.error ComposerError.usageError
        ∧ (sampleComposer.dispose).removeEffect 0 =
            Except.error ComposerError.usageError
        ∧ (sampleComposer.dispose).setEffectEnabled 0 false =
            Except.error ComposerError.usageError) :=
  ⟨by decide,
    disposed_operations_usage_error sampleComposer.dispose 0 0 false dD
      (by decide)⟩

/-!  Opacity updates. -/

/-- After updating the opacity of effect `i`, the uniform list read at
render start reports the new value for `i`. -/
theorem lookup_opacity_set (l : List EffectDescriptor) (i : Nat) (v : ℚ)
    (hex : ∃ d ∈ l, d.id = i) :
    ((l.map (fun d => if d.id = i then { d with opacity := v } else d)).map
      (fun d => (d.id, d.opacity))).lookup i = some v := by
  induction l with
  | nil =>
    rcases hex with ⟨d, hd, _⟩
    simp at hd
  | cons d l ih =>
    by_cases hid : d.id = i
    · simp [hid, List.lookup]
    · rcases hex with ⟨d2, hd2, hd2i⟩
      have hmem : d2 ∈ l := by
        rcases List.mem_cons.mp hd2 with rfl | hm
        · exact absurd hd2i hid
        · exact hm
      have hne : (i == d.id) = false := by
        simp
        exact fun he => hid he.symm
      simp only [List.map_cons, if_neg hid, List.lookup, hne]
      exact ih ⟨d2, hmem, hd2i⟩

/-- C7: changing an effect's opacity between frames never triggers a
replan — the dirty flag and the compiled pass list are untouched, the
next render call reuses the same passes and programs — and the updated
opacity value is the uniform read at the start of that render call. -/
theorem setOpacity_no_replan (c : Composer) (i : Nat) (v dt : ℚ)
    (hdis : c.disposed = false) (hdirty : c.planDirty = false)
    (hex : ∃ d ∈ c.descriptors, d.id = i) :
    (c.setOpacity i v).planDirty = c.planDirty
    ∧ (c.setOpacity i v).passes = c.passes
    ∧ (c.setOpacity i v).render dt =
        Except.ok (c.setOpacity i v,
          { draws := c.passes.length
            wiring := schedule c.passes.length
            opacities := (c.setOpacity i v).descriptors.map
              (fun d => (d.id, d.opacity))
            deltaTime := dt })
    ∧ ((c.setOpacity i v).descriptors.map
        (fun d => (d.id, d.opacity))).lookup i = some v := by
  refine ⟨rfl, rfl, ?_, ?_⟩
  · rw [Composer.render]
    have h1 : (c.setOpacity i v).disposed = false := hdis
    have h2 : (c.setOpacity i v).planDirty = false := hdirty
    rw [if_neg (by rw [h1]; exact fun hc => Bool.noConfusion hc)]
    simp only [h2, Bool.false_eq_true, if_false]
    rfl
  · exact lookup_opacity_set c.descriptors i v hex

/-- Witness for C7: set A's opacity to 1/3 on the sample composer. -/
theorem setOpacity_no_replan_witness :
    sampleComposer.disposed = false
    ∧ sampleComposer.planDirty = false
    ∧ (∃ d ∈ sampleComposer.descriptors, d.id = 0)
    ∧ ((sampleComposer.setOpacity 0 (1/3)).planDirty = sampleComposer.planDirty
        ∧ (sampleComposer.setOpacity 0 (1/3)).passes = sampleComposer.passes
        ∧ (sampleComposer.setOpacity 0 (1/3)).render 7 =
            Except.ok (sampleComposer.setOpacity 0 (1/3),
              { draws := sampleComposer.passes.length
                wiring := schedule sampleComposer.passes.length
                opacities := (sampleComposer.setOpacity 0 (1/3)).descriptors.map
                  (fun d => (d.id, d.opacity))
                deltaTime := 7 })
        ∧ ((sampleComposer.setOpacity 0 (1/3)).descriptors.map
            (fun d => (d.id, d.opacity))).lookup 0 = some (1/3)) :=
  ⟨by decide, by decide, by decide,
    setOpacity_no_replan sampleComposer 0 (1/3) 7 (by decide) (by decide)
      (by decide)⟩

/-- C8 counterexample: on the live sample composer with a clean plan,
mutating descriptor 0's blendFunction (a structural property) is a plain
property write — it changes the descriptor but does NOT mark the plan
dirty, and the next render call reuses the stale pass list instead of
replanning; the demo must call recompile explicitly
(`src/demo/src/demos/ColorDepthDemo.js` lines 186-191). -/
theorem setBlendFunction_not_dirty_counterexample :
    (sampleComposer.setBlendFunction 0 BlendFunction.ADD).descriptors ≠
      sampleComposer.descriptors
    ∧ (sampleComposer.setBlendFunction 0 BlendFunction.ADD).planDirty = false
    ∧ ((sampleComposer.setBlendFunction 0 BlendFunction.ADD).render 0).map
        (fun p => p.1.passes) = Except.ok sampleComposer.passes := by
  refine ⟨by decide, by decide, ?_⟩
  rfl

/-- C8 (amended): addEffect, removeEffect, and a setEffectEnabled call
that changes the descriptor list mark the plan dirty, and the next render
call on a dirty live composer synchronously runs Merge Planner → Shader
Synthesizer → Pass Scheduler before executing; mutating blendFunction,
however, does not mark the plan dirty — the caller must explicitly invoke
recompile (as the demo does), after which the plan is dirty. -/
theorem structural_mutation_dirty_replan (c : Composer)
    (d : EffectDescriptor) (i j : Nat) (b : Bool) (bf : BlendFunction)
    (dt : ℚ) (hdis : c.disposed = false)
    (hch : setEnabledList c.descriptors j b ≠ c.descriptors)
    (hdirty : c.planDirty = true) :
    (c.addEffect d).map (·.planDirty) = Except.ok true
    ∧ (c.removeEffect i).map (·.planDirty) = Except.ok true
    ∧ (c.setEffectEnabled j b).map (·.planDirty) = Except.ok true
    ∧ (c.setBlendFunction i bf).planDirty = c.planDirty
    ∧ ((c.setBlendFunction i bf).recompile).planDirty = true
    ∧ c.render dt =
        Except.ok (c.replan,
          { draws := (compilePasses (mergePlan c.descriptors)).length
            wiring := schedule (compilePasses (mergePlan c.descriptors)).length
            opacities := c.descriptors.map (fun x => (x.id, x.opacity))
            deltaTime := dt }) := by
  have hnd : ¬ (c.disposed = true) := by
    rw [hdis]; exact fun hc => Bool.noConfusion hc
  refine ⟨?_, ?_, ?_, rfl, rfl, ?_⟩
  · rw [Composer.addEffect, if_neg hnd]
    rfl
  · rw [Composer.removeEffect, if_neg hnd]
    rfl
  · rw [Composer.setEffectEnabled, if_neg hnd]
    simp [hch, Except.map]
  · rw [Composer.render, if_neg hnd]
    simp only [hdirty, if_true]
    rfl

/-- Witness for C8 (amended) on the dirtied sample composer, disabling A
(a real change) and adding D. -/
theorem structural_mutation_dirty_replan_witness :
    (sampleComposer.recompile).disposed = false
    ∧ setEnabledList (sampleComposer.recompile).descriptors 0 false ≠
        (sampleComposer.recompile).descriptors
    ∧ (sampleComposer.recompile).planDirty = true
    ∧ (((sampleComposer.recompile).addEffect dD).map (·.planDirty) =
          Except.ok true
        ∧ ((sampleComposer.recompile).removeEffect 1).map (·.planDirty) =
            Except.ok true
        ∧ ((sampleComposer.recompile).setEffectEnabled 0 false).map
            (·.planDirty) = Except.ok true
        ∧ ((sampleComposer.recompile).setBlendFunction 1
            BlendFunction.ADD).planDirty = (sampleComposer.recompile).planDirty
        ∧ (((sampleComposer.recompile).setBlendFunction 1
            BlendFunction.ADD).recompile).planDirty = true
        ∧ (sampleComposer.recompile).render 2 =
            Except.ok ((sampleComposer.recompile).replan,
              { draws := (compilePasses
                  (mergePlan (sampleComposer.recompile).descriptors)).length
                wiring := schedule (compilePasses
                  (mergePlan (sampleComposer.recompile).descriptors)).length
                opacities := (sampleComposer.recompile).descriptors.map
                  (fun x => (x.id, x.opacity))
                deltaTime := 2 })) :=
  ⟨by decide, by decide, by decide,
    structural_mutation_dirty_replan sampleComposer.recompile dD 1 0 false
      BlendFunction.ADD 2 (by decide) (by decide) (by decide)⟩

/-!  Scheduler wiring. -/

/-- Element `i` of the schedule is the wiring of pass `i`. -/
theorem schedule_getElem (n i : Nat) (hi : i < n) :
    (schedule n)[i]? = some (passInput i, passOutputTarget n i) := by
  simp [schedule, List.getElem?_map, List.getElem?_range, hi]

/-- C9: in a frame of n ≥ 2 passes, the first pass reads the externally
supplied scene color and writes ping-pong buffer A; each subsequent pass
reads the previous pass's output target and, before the final pass,
writes the other ping-pong buffer; the final pass writes directly to the
screen; a frame with exactly one pass reads the scene color and writes
directly to the screen. -/
theorem schedule_wiring (n : Nat) (h : 2 ≤ n) :
    (schedule n)[0]? = some (Target.sceneColor, Target.bufA)
    ∧ (∀ i, 0 < i → i < n →
        ((schedule n)[i]?).map Prod.fst = ((schedule n)[i - 1]?).map Prod.snd)
    ∧ (∀ i, 0 < i → i < n - 1 →
        ((schedule n)[i]?).map Prod.snd = some (pingPong i)
          ∧ pingPong i ≠ pingPong (i - 1))
    ∧ ((schedule n)[n - 1]?).map Prod.snd = some Target.screen
    ∧ schedule 1 = [(Target.sceneColor, Target.screen)] := by
  refine ⟨?_, ?_, ?_, ?_, by decide⟩
  · rw [schedule_getElem n 0 (by omega), passInput, if_pos rfl,
      passOutputTarget, if_neg (by omega : (0:Nat) ≠ n - 1), pingPong]
    simp
  · intro i h1 h2
    rw [schedule_getElem n i h2, schedule_getElem n (i - 1) (by omega)]
    simp only [Option.map_some']
    rw [passInput, if_neg (by omega), passOutputTarget, if_neg (by omega)]
  · intro i h1 h2
    constructor
    · rw [schedule_getElem n i (by omega)]
      simp only [Option.map_some']
      rw [passOutputTarget, if_neg (by omega)]
    · rw [pingPong, pingPong]
      by_cases hp : i % 2 = 0
      · have hq : (i - 1) % 2 = 1 := by omega
        simp [hp, hq]
      · have hq : (i - 1) % 2 = 0 := by omega
        simp [hp, hq]
  · rw [schedule_getElem n (n - 1) (by omega)]
    simp only [Option.map_some']
    rw [passOutputTarget, if_pos rfl]

/-- Witness for C9 at the concrete three-pass frame. -/
theorem schedule_wiring_witness :
    (2 ≤ 3)
    ∧ ((schedule 3)[0]? = some (Target.sceneColor, Target.bufA)
        ∧ (∀ i, 0 < i → i < 3 →
            ((schedule 3)[i]?).map Prod.fst =
              ((schedule 3)[i - 1]?).map Prod.snd)
        ∧ (∀ i, 0 < i → i < 3 - 1 →
            ((schedule 3)[i]?).map Prod.snd = some (pingPong i)
              ∧ pingPong i ≠ pingPong (i - 1))
        ∧ ((schedule 3)[3 - 1]?).map Prod.snd = some Target.screen
        ∧ schedule 1 = [(Target.sceneColor, Target.screen)]) :=
  ⟨by decide, schedule_wiring 3 (by decide)⟩

/-!  RealisticBokehPass lifecycle. -/

/-- C10: a RealisticBokehPass constructed with no arguments, before any
rendering or renderer initialization, can immediately be disposed without
an error being raised, and the object remains a valid (truthy) object
after disposal. -/
theorem realisticBokehPass_create_destroy :
    RealisticBokehPass.new.dispose =
      Except.ok { materialAllocated := false, disposed := true }
    ∧ RealisticBokehPass.new.truthy = true
    ∧ ({ materialAllocated := false, disposed := true } :
        RealisticBokehPass).truthy = true := by
  exact ⟨rfl, rfl, rfl⟩
